import Mathlib

/-!
Verification of `dr_policy.py` (tabular distributionally robust policy classes).

The file embeds the three policy classes `DRPolicyKL`, `DRPolicySinkhorn` and
`DRPolicyWass` shallowly: numpy float arithmetic is modelled over `ℝ`, the
per-state probability rows are functions `ℕ → ℝ`, the list of rows is a
function `ℕ → ℕ → ℝ` (`Table`), and Python exceptions are an explicit
`Except PyErr` result.  Python list indexing (including the wrap-around of
negative indices) is modelled by `pyIdx`.  The object identity of the
`self.distributions` list, which `DRPolicyKL.update` mutates in place while
the other two classes rebind it to a fresh list, is modelled by a small heap
of list addresses (`Heap`), so that aliasing through `get_policy` is
observable.

The dead dual-optimisation code of the source (`gradient`, `objective`, the
commented-out `dual_annealing` call) is never invoked by any update and is
not modelled.
-/

namespace DrPolicy

noncomputable section

/-- Python exception classes that the reference code can raise during an
update (`IndexError` from list indexing, `NameError`/`UnboundLocalError` from
reading the never-assigned `beta`/`opt_beta`), plus the `ConfigurationError`
demanded by the specification, which the code never raises. -/
inductive PyErr
  | indexError
  | nameError
  | configurationError
  deriving DecidableEq

/-- A list of per-state rows, each row an array of per-action floats.  Entries
outside the declared ranges are conventionally irrelevant. -/
abbrev Table := ℕ → ℕ → ℝ

/-- Addresses of Python list objects: the value currently stored in the list
object at each address. -/
abbrev Heap := ℕ → Table

/-- Python list indexing semantics for a list of length `n`: indices in
`[0, n)` are used directly, indices in `[-n, 0)` wrap around to `n + i`, and
anything else raises `IndexError`. -/
def pyIdx (n : ℕ) (i : ℤ) : Option ℕ :=
  if 0 ≤ i then
    if i < (n : ℤ) then some i.toNat else none
  else
    if -(n : ℤ) ≤ i then some (i + (n : ℤ)).toNat else none

/-- The accumulator of the sample-aggregation loops: `all_advantages` sums and
`count` occurrence counts, both zero-initialised `sta_num × act_num` float
tables. -/
structure Agg where
  sums : Table
  counts : Table

/-- Pointwise update of one cell of a table, as done by
`all_advantages[s][a] += v`. -/
def upd2 (f : Table) (s a : ℕ) (v : ℝ) : Table :=
  fun s2 a2 => if s2 = s ∧ a2 = a then v else f s2 a2

/-- One iteration of the aggregation loop
`all_advantages[observes[i]][actions[i]] += advantages[i];
count[observes[i]][actions[i]] += 1`, with Python indexing of the per-state
list (length `S`) and the per-action array (length `A`). -/
def aggStep (S A : ℕ) (acc : Agg) (smp : ℤ × ℤ × ℝ) : Except PyErr Agg :=
  match pyIdx S smp.1 with
  | none => Except.error PyErr.indexError
  | some s =>
    match pyIdx A smp.2.1 with
    | none => Except.error PyErr.indexError
    | some a =>
      Except.ok ⟨upd2 acc.sums s a (acc.sums s a + smp.2.2),
                 upd2 acc.counts s a (acc.counts s a + 1)⟩

/-- The aggregation loop `for i in range(len(observes))` over the batch. -/
def aggFold (S A : ℕ) : Agg → List (ℤ × ℤ × ℝ) → Except PyErr Agg
  | acc, [] => Except.ok acc
  | acc, smp :: rest =>
    match aggStep S A acc smp with
    | Except.error e => Except.error e
    | Except.ok acc2 => aggFold S A acc2 rest

/-- The advantage table built by every `update`: per-cell mean of the batch
advantages, where the division is guarded by `if count[s][i] != 0`. -/
def advTable (S A : ℕ) (samples : List (ℤ × ℤ × ℝ)) : Except PyErr Table :=
  match aggFold S A ⟨fun _ _ => 0, fun _ _ => 0⟩ samples with
  | Except.error e => Except.error e
  | Except.ok acc =>
    Except.ok (fun s a =>
      if acc.counts s a = 0 then acc.sums s a else acc.sums s a / acc.counts s a)

/-- `calc_d` of both `DRPolicySinkhorn` and `DRPolicyWass`: the discrete
metric on actions. -/
def calc_d (ai aj : ℕ) : ℝ := if ai = aj then 0 else 1

/-- The environment-specific advantage bonuses of `DRPolicyKL.update`
(`NChain-v0` bumps cells `(0,1)` and `(1,1)`, `Taxi-v3` bumps action `0` of
states `400..499`).  The bonus statements are Python list/array accesses, so
they raise `IndexError` when the bonus cells fall outside the `S × A` table:
`NChain-v0` needs `all_advantages[0][1]` and `all_advantages[1][1]` (so
`2 ≤ S` and `2 ≤ A`), `Taxi-v3` needs `all_advantages[s][0]` for every
`s ∈ [400, 500)` (so `500 ≤ S` and `1 ≤ A`; on failure the partial writes to
the local table are discarded with the aborted call). -/
def klAdjust (S A : ℕ) (env : String) (adv : Table) : Except PyErr Table :=
  match (if env = "NChain-v0" then
           if 2 ≤ S ∧ 2 ≤ A then
             Except.ok (upd2 (upd2 adv 0 1 (adv 0 1 + 0.1)) 1 1 (adv 1 1 + 0.3))
           else Except.error PyErr.indexError
         else Except.ok adv) with
  | Except.error e => Except.error e
  | Except.ok adv1 =>
    if env = "Taxi-v3" then
      if 500 ≤ S ∧ 1 ≤ A then
        Except.ok (fun s a =>
          if 400 ≤ s ∧ s < 500 ∧ a = 0 then adv1 s a + 2 else adv1 s a)
      else Except.error PyErr.indexError
    else Except.ok adv1

/-- The environment-specific advantage bonus of `DRPolicySinkhorn.update`
(only the `NChain-v0` branch is live; the `Taxi-v3` one is commented out).
Like the KL bonus it raises `IndexError` when the `NChain-v0` cells `(0,1)`
and `(1,1)` do not exist (`S < 2` or `A < 2`). -/
def sinkAdjust (S A : ℕ) (env : String) (adv : Table) : Except PyErr Table :=
  if env = "NChain-v0" then
    if 2 ≤ S ∧ 2 ≤ A then
      Except.ok (upd2 (upd2 adv 0 1 (adv 0 1 + 0.1)) 1 1 (adv 1 1 + 0.3))
    else Except.error PyErr.indexError
  else Except.ok adv

/-- The environment-specific advantage bonus of `DRPolicyWass.update`
(both bumped cells get `+= 0.1` here, unlike the KL class), raising
`IndexError` when the `NChain-v0` cells do not exist (`S < 2` or `A < 2`). -/
def wassAdjust (S A : ℕ) (env : String) (adv : Table) : Except PyErr Table :=
  if env = "NChain-v0" then
    if 2 ≤ S ∧ 2 ≤ A then
      Except.ok (upd2 (upd2 adv 0 1 (adv 0 1 + 0.1)) 1 1 (adv 1 1 + 0.1))
    else Except.error PyErr.indexError
  else Except.ok adv

/-- One state of the KL projection, lines 90-91 of the source:
`exp(all_advantages[s]/beta) * old[s] / sum(exp(all_advantages[s]/beta) * old[s])`. -/
def klNewRow (beta : ℝ) (A : ℕ) (adv old : ℕ → ℝ) (a : ℕ) : ℝ :=
  Real.exp (adv a / beta) * old a /
    ∑ b ∈ Finset.range A, Real.exp (adv b / beta) * old b

/-- One state of the Sinkhorn projection, lines 173-180 of the source: the
accumulation `distributions[s][i] += old[s][j] * numer / denom` over source
actions `j`, with `numer = exp((lamb/beta)*adv[s][i] - lamb*calc_d(i,j))` and
`denom = sum over k of exp((lamb/beta)*adv[s][k] - lamb*calc_d(k,j))`. -/
def sinkNewRow (lamb beta : ℝ) (A : ℕ) (adv old : ℕ → ℝ) (i : ℕ) : ℝ :=
  ∑ j ∈ Finset.range A,
    old j * (Real.exp (lamb / beta * adv i - lamb * calc_d i j) /
      ∑ k ∈ Finset.range A, Real.exp (lamb / beta * adv k - lamb * calc_d k j))

/-- The body of the scan of `find_best_j`: `if cur_val > opt_val` replaces the
current optimum, ties keep the earlier index. -/
def bestStep (val : ℕ → ℝ) (acc : ℕ × ℝ) (j : ℕ) : ℕ × ℝ :=
  if acc.2 < val j then (j, val j) else acc

/-- The scan `for j in range(act_num)` of `find_best_j`, seeded with
`opt_j = 0, opt_val = val 0`. -/
def bestScan (val : ℕ → ℝ) (A : ℕ) : ℕ × ℝ :=
  (List.range A).foldl (bestStep val) (0, val 0)

/-- `find_best_j` of `DRPolicyWass.update`: for each source action `i`, the
first index attaining the maximum of `adv[s][j] - beta * calc_d(j, i)`. -/
def find_best_j (beta : ℝ) (adv : ℕ → ℝ) (A : ℕ) (i : ℕ) : ℕ :=
  (bestScan (fun j => adv j - beta * calc_d j i) A).1

/-- One state of the Wasserstein transport, lines 298-302 of the source: the
accumulation `distributions[s][j] += old[s][i]` over the source actions `i`
with `j == best_j[s][i]`, starting from zero rows. -/
def wassNewRow (beta : ℝ) (A : ℕ) (adv old : ℕ → ℝ) (j : ℕ) : ℝ :=
  ∑ i ∈ Finset.range A, if find_best_j beta adv A i = j then old i else 0

/-- `DRPolicyKL.update` as a function of the old distributions: aggregate the
batch, apply the environment bonuses, then tilt every state row with the
hardcoded `beta = 1`.  The assignment `self.distributions[s] = ...` replaces
exactly the rows `s < S` (each row is read before it is overwritten, and row
`s` only reads row `s`), leaving everything else as it was. -/
def klUpdate (S A : ℕ) (samples : List (ℤ × ℤ × ℝ)) (env : String)
    (old : Table) : Except PyErr Table :=
  match advTable S A samples with
  | Except.error e => Except.error e
  | Except.ok adv0 =>
    match klAdjust S A env adv0 with
    | Except.error e => Except.error e
    | Except.ok adv =>
      Except.ok (fun s a =>
        if s < S ∧ a < A then klNewRow 1 A (adv s) (old s) a
        else old s a)

/-- The beta/lambda selection of `DRPolicySinkhorn.update`: `Taxi-v3` sets
`beta = 3` and `self.lamb` to `eps**2` capped at `5.5`; `NChain-v0` sets
`beta = 0.8`; any other name leaves `beta` unassigned (`none`). -/
def sinkBetaLamb (env : String) (eps lamb0 : ℝ) : Option ℝ × ℝ :=
  if env = "Taxi-v3" then (some 3, if 6 ≤ eps ^ 2 then 5.5 else eps ^ 2)
  else if env = "NChain-v0" then (some 0.8, lamb0)
  else (none, lamb0)

/-- `DRPolicySinkhorn.update` as a function of the old distributions.  When
`beta` was never assigned, the freshly rebound zero rows are published and
the first loop iteration raises `NameError`; with no iterations
(`S = 0` or `A = 0`) no error occurs and the zero rows remain. -/
def sinkUpdate (S A : ℕ) (samples : List (ℤ × ℤ × ℝ)) (env : String)
    (eps lamb0 : ℝ) (old : Table) : Except PyErr Table :=
  match advTable S A samples with
  | Except.error e => Except.error e
  | Except.ok adv0 =>
    match sinkAdjust S A env adv0 with
    | Except.error e => Except.error e
    | Except.ok adv =>
      match sinkBetaLamb env eps lamb0 with
      | (some beta, lamb) =>
        Except.ok (fun s a =>
          if s < S ∧ a < A then sinkNewRow lamb beta A (adv s) (old s) a
          else 0)
      | (none, _) =>
        if S = 0 ∨ A = 0 then Except.ok (fun _ _ => 0)
        else Except.error PyErr.nameError

/-- The beta selection of `DRPolicyWass.update`: `Taxi-v3` draws
`2 + 0.8*(u - 0.5)` with `u` the `np.random.random()` sample, `NChain-v0`
and `CliffWalking-v0` use fixed constants, any other name leaves `opt_beta`
unassigned (`none`). -/
def wassBeta (env : String) (u : ℝ) : Option ℝ :=
  if env = "Taxi-v3" then some (2 + 0.8 * (u - 0.5))
  else if env = "NChain-v0" then some 0.8
  else if env = "CliffWalking-v0" then some 0.5
  else none

/-- `DRPolicyWass.update` as a function of the old distributions.  With an
unassigned `opt_beta` the call `find_best_j(opt_beta)` raises `NameError`
before the distributions are rebound. -/
def wassUpdate (S A : ℕ) (samples : List (ℤ × ℤ × ℝ)) (env : String)
    (u : ℝ) (old : Table) : Except PyErr Table :=
  match advTable S A samples with
  | Except.error e => Except.error e
  | Except.ok adv0 =>
    match wassAdjust S A env adv0 with
    | Except.error e => Except.error e
    | Except.ok adv =>
      match wassBeta env u with
      | some beta =>
        Except.ok (fun s a =>
          if s < S ∧ a < A then wassNewRow beta A (adv s) (old s) a
          else 0)
      | none => Except.error PyErr.nameError

/-- Store a table at an address of the heap. -/
def updH (h : Heap) (addr : ℕ) (t : Table) : Heap :=
  fun x => if x = addr then t else h x

/-- Object-level `DRPolicyKL.update` on a heap state
`(heap, address of self.distributions, next fresh address)`: the new rows are
written through the existing list object (item assignment), so the address is
unchanged.  Errors report the Python state left behind, which here is always
the unchanged one (the aggregation fails before any mutation of
`self.distributions`). -/
def klUpdateObj (S A : ℕ) (samples : List (ℤ × ℤ × ℝ)) (env : String)
    (st : Heap × ℕ × ℕ) : Except (PyErr × Heap × ℕ × ℕ) (Heap × ℕ × ℕ) :=
  match klUpdate S A samples env (st.1 st.2.1) with
  | Except.error e => Except.error (e, st)
  | Except.ok f => Except.ok (updH st.1 st.2.1 f, st.2.1, st.2.2)

/-- Object-level `DRPolicySinkhorn.update`: `self.distributions` is rebound to
a freshly allocated list of rows, so a successful update publishes a new
address and leaves the old list object untouched.  On the `NameError` path the
rebinding to zero rows has already happened, so the error state carries the
mutated object. -/
def sinkUpdateObj (S A : ℕ) (samples : List (ℤ × ℤ × ℝ)) (env : String)
    (eps lamb0 : ℝ) (st : Heap × ℕ × ℕ) :
    Except (PyErr × Heap × ℕ × ℕ) (Heap × ℕ × ℕ) :=
  match advTable S A samples with
  | Except.error e => Except.error (e, st)
  | Except.ok adv0 =>
    match sinkAdjust S A env adv0 with
    | Except.error e => Except.error (e, st)
    | Except.ok adv =>
      match sinkBetaLamb env eps lamb0 with
      | (some beta, lamb) =>
        Except.ok (updH st.1 st.2.2 (fun s a =>
          if s < S ∧ a < A then sinkNewRow lamb beta A (adv s) (st.1 st.2.1 s) a
          else 0), st.2.2, st.2.2 + 1)
      | (none, _) =>
        if S = 0 ∨ A = 0 then
          Except.ok (updH st.1 st.2.2 (fun _ _ => 0), st.2.2, st.2.2 + 1)
        else
          Except.error (PyErr.nameError, updH st.1 st.2.2 (fun _ _ => 0), st.2.2, st.2.2 + 1)

/-- Object-level `DRPolicyWass.update`: like the Sinkhorn class it rebinds
`self.distributions` to a fresh list, but the `NameError` of an unrecognised
environment fires at `find_best_j(opt_beta)`, before the rebinding. -/
def wassUpdateObj (S A : ℕ) (samples : List (ℤ × ℤ × ℝ)) (env : String)
    (u : ℝ) (st : Heap × ℕ × ℕ) : Except (PyErr × Heap × ℕ × ℕ) (Heap × ℕ × ℕ) :=
  match advTable S A samples with
  | Except.error e => Except.error (e, st)
  | Except.ok adv0 =>
    match wassAdjust S A env adv0 with
    | Except.error e => Except.error (e, st)
    | Except.ok adv =>
      match wassBeta env u with
      | some beta =>
        Except.ok (updH st.1 st.2.2 (fun s a =>
          if s < S ∧ a < A then wassNewRow beta A (adv s) (st.1 st.2.1 s) a
          else 0), st.2.2, st.2.2 + 1)
      | none => Except.error (PyErr.nameError, st)

/-- Semantics of `np.random.choice(A, 1, p=p)` for one uniform draw
`u ∈ [0, 1)`, modelled from the documented inverse-CDF sampling of numpy
(`searchsorted` of the cumulative sums, side right): the least index whose
cumulative probability exceeds `u`. -/
def npChoice (A : ℕ) (p : ℕ → ℝ) (u : ℝ) : ℕ :=
  if h : ∃ i, i < A ∧ u < ∑ k ∈ Finset.range (i + 1), p k then Nat.find h
  else A - 1

/-- The `sample` method shared by all three classes:
`self.distributions[obs]` (Python list indexing), then one
`np.random.choice` draw from that row. -/
def pySample (S A : ℕ) (dists : Table) (obs : ℤ) (u : ℝ) : Except PyErr ℕ :=
  match pyIdx S obs with
  | none => Except.error PyErr.indexError
  | some s => Except.ok (npChoice A (dists s) u)

/-- Whether an update result is a normal return. -/
def isOk {α : Type} : Except PyErr α → Prop
  | Except.ok _ => True
  | Except.error _ => False

/-- Whether an object-level update result is a normal return. -/
def isOkObj : Except (PyErr × Heap × ℕ × ℕ) (Heap × ℕ × ℕ) → Prop
  | Except.ok _ => True
  | Except.error _ => False

/-- The table produced by a successful update (junk on error). -/
def outTable : Except PyErr Table → Table
  | Except.ok f => f
  | Except.error _ => fun _ _ => 0

/-- Uniform half-half rows: the initial policy for two actions. -/
def oldHalf : Table := fun _ _ => 1 / 2

/-- A non-uniform but valid two-action probability row. -/
def oldNU : Table := fun _ a => if a = 0 then 3 / 4 else 1 / 4

/-- A heap whose every list holds all-ones rows. -/
def hOnes : Heap := fun _ => fun _ _ => 1

/-- The four samples of the concrete KL scenario of the specification. -/
def samplesC2 : List (ℤ × ℤ × ℝ) := [(0, 0, 1), (0, 1, -1), (1, 0, 0), (1, 1, 0)]

/-- A batch with a negative state index, accepted by Python wrap-around. -/
def samplesNeg : List (ℤ × ℤ × ℝ) := [(-1, 0, 1)]

/-- A batch with a too-large state index, which raises `IndexError`. -/
def samplesOOB : List (ℤ × ℤ × ℝ) := [(5, 0, 1)]

/-- `pyIdx` fails exactly on the indices outside `[-n, n)`. -/
theorem pyIdx_eq_none (n : ℕ) (i : ℤ) :
    pyIdx n i = none ↔ ((n : ℤ) ≤ i ∨ i < -(n : ℤ)) := by
  unfold pyIdx
  split_ifs with h1 h2 h3 <;> simp <;> omega

/-- A batch containing an out-of-range sample makes the aggregation loop
raise `IndexError`, whatever was accumulated before. -/
theorem aggFold_bad (S A : ℕ) (samples : List (ℤ × ℤ × ℝ)) :
    (∃ smp ∈ samples,
      (S : ℤ) ≤ smp.1 ∨ smp.1 < -(S : ℤ) ∨ (A : ℤ) ≤ smp.2.1 ∨ smp.2.1 < -(A : ℤ)) →
    ∀ acc, aggFold S A acc samples = Except.error PyErr.indexError := by
  induction samples with
  | nil => rintro ⟨smp, h, -⟩; simp at h
  | cons smp rest ih =>
    rintro ⟨smp2, hmem, hbad⟩ acc
    rcases List.mem_cons.mp hmem with rfl | hmem2
    · rcases hbad with hb | hb | hb | hb
      · have hnone : pyIdx S smp2.1 = none := (pyIdx_eq_none S smp2.1).mpr (Or.inl hb)
        simp [aggFold, aggStep, hnone]
      · have hnone : pyIdx S smp2.1 = none := (pyIdx_eq_none S smp2.1).mpr (Or.inr hb)
        simp [aggFold, aggStep, hnone]
      · have hnone : pyIdx A smp2.2.1 = none := (pyIdx_eq_none A smp2.2.1).mpr (Or.inl hb)
        cases hst : pyIdx S smp2.1 with
        | none => simp [aggFold, aggStep, hst]
        | some s => simp [aggFold, aggStep, hst, hnone]
      · have hnone : pyIdx A smp2.2.1 = none := (pyIdx_eq_none A smp2.2.1).mpr (Or.inr hb)
        cases hst : pyIdx S smp2.1 with
        | none => simp [aggFold, aggStep, hst]
        | some s => simp [aggFold, aggStep, hst, hnone]
    · cases hstep : aggStep S A acc smp with
      | error e =>
        rcases smp with ⟨o, a, v⟩
        unfold aggStep at hstep
        cases hst : pyIdx S o with
        | none => simp [aggFold, aggStep, hst]
        | some s =>
          cases hac : pyIdx A a with
          | none => simp [aggFold, aggStep, hst, hac]
          | some b => simp [hst, hac] at hstep
      | ok acc2 =>
        have := ih ⟨smp2, hmem2, hbad⟩ acc2
        simp [aggFold, hstep, this]

/-- The KL tilting denominator is positive on a strictly positive row. -/
theorem kl_denom_pos (beta : ℝ) (A : ℕ) (adv old : ℕ → ℝ) (hA : A ≠ 0)
    (hpos : ∀ a, a < A → 0 < old a) :
    0 < ∑ b ∈ Finset.range A, Real.exp (adv b / beta) * old b :=
  Finset.sum_pos
    (fun i hi => mul_pos (Real.exp_pos _) (hpos i (Finset.mem_range.mp hi)))
    ⟨0, Finset.mem_range.mpr (Nat.pos_of_ne_zero hA)⟩

/-- The KL-projected row sums to one on a strictly positive unit-mass row. -/
theorem klRow_sum (beta : ℝ) (A : ℕ) (adv old : ℕ → ℝ)
    (hpos : ∀ a, a < A → 0 < old a)
    (hsum : ∑ a ∈ Finset.range A, old a = 1) :
    ∑ a ∈ Finset.range A, klNewRow beta A adv old a = 1 := by
  have hA : A ≠ 0 := by rintro rfl; simp at hsum
  have hd := kl_denom_pos beta A adv old hA hpos
  unfold klNewRow
  rw [← Finset.sum_div, div_self hd.ne']

/-- The KL-projected row is nonnegative on a strictly positive row. -/
theorem klRow_nonneg (beta : ℝ) (A : ℕ) (adv old : ℕ → ℝ)
    (hpos : ∀ a, a < A → 0 < old a) (hA : A ≠ 0) (a : ℕ) (ha : a < A) :
    0 ≤ klNewRow beta A adv old a :=
  div_nonneg (mul_nonneg (Real.exp_pos _).le (hpos a ha).le)
    (kl_denom_pos beta A adv old hA hpos).le

/-- Every Sinkhorn transport denominator is positive when there is at least
one action. -/
theorem sink_denom_pos (lamb beta : ℝ) (A : ℕ) (adv : ℕ → ℝ) (j : ℕ) (hA : A ≠ 0) :
    0 < ∑ k ∈ Finset.range A, Real.exp (lamb / beta * adv k - lamb * calc_d k j) :=
  Finset.sum_pos (fun _ _ => Real.exp_pos _)
    ⟨0, Finset.mem_range.mpr (Nat.pos_of_ne_zero hA)⟩

/-- The Sinkhorn sweep conserves mass: the new row sums to the old mass. -/
theorem sinkRow_sum (lamb beta : ℝ) (A : ℕ) (adv old : ℕ → ℝ) (hA : A ≠ 0) :
    ∑ i ∈ Finset.range A, sinkNewRow lamb beta A adv old i
      = ∑ j ∈ Finset.range A, old j := by
  unfold sinkNewRow
  rw [Finset.sum_comm]
  refine Finset.sum_congr rfl (fun j hj => ?_)
  have hd := sink_denom_pos lamb beta A adv j hA
  rw [← Finset.mul_sum, ← Finset.sum_div, div_self hd.ne', mul_one]

/-- The Sinkhorn sweep keeps nonnegative rows nonnegative. -/
theorem sinkRow_nonneg (lamb beta : ℝ) (A : ℕ) (adv old : ℕ → ℝ) (i : ℕ)
    (hnn : ∀ j, j < A → 0 ≤ old j) :
    0 ≤ sinkNewRow lamb beta A adv old i := by
  unfold sinkNewRow
  refine Finset.sum_nonneg (fun j hj => ?_)
  refine mul_nonneg (hnn j (Finset.mem_range.mp hj)) ?_
  refine div_nonneg (Real.exp_pos _).le ?_
  exact Finset.sum_nonneg (fun _ _ => (Real.exp_pos _).le)

/-- Invariant of the `find_best_j` scan: the accumulator holds the value of
its index, the index is in range (or the seed `0`), the value dominates all
scanned entries, and every entry before the index is strictly below it (so
the first maximiser wins ties). -/
theorem bestScan_spec (val : ℕ → ℝ) :
    ∀ A : ℕ,
      (bestScan val A).2 = val (bestScan val A).1 ∧
      ((bestScan val A).1 = 0 ∨ (bestScan val A).1 < A) ∧
      (∀ j, j < A → val j ≤ (bestScan val A).2) ∧
      (∀ j, j < (bestScan val A).1 → val j < (bestScan val A).2) := by
  intro A
  induction A with
  | zero => simp [bestScan]
  | succ A ih =>
    obtain ⟨h1, h2, h3, h4⟩ := ih
    have hstep : bestScan val (A + 1) = bestStep val (bestScan val A) A := by
      unfold bestScan
      rw [List.range_succ, List.foldl_append, List.foldl_cons, List.foldl_nil]
    by_cases hlt : (bestScan val A).2 < val A
    · have hres : bestScan val (A + 1) = (A, val A) := by
        rw [hstep]; unfold bestStep; rw [if_pos hlt]
      refine ⟨by rw [hres], Or.inr (by rw [hres]; exact Nat.lt_succ_self A), ?_, ?_⟩
      · intro j hj
        rcases Nat.lt_succ_iff_lt_or_eq.mp hj with hj2 | rfl
        · rw [hres]; exact le_of_lt (lt_of_le_of_lt ((h1 ▸ h3 j hj2)) hlt)
        · rw [hres]
      · intro j hj
        rw [hres] at hj ⊢
        exact lt_of_le_of_lt (h1 ▸ h3 j hj) hlt
    · have hres : bestScan val (A + 1) = bestScan val A := by
        rw [hstep]; unfold bestStep; rw [if_neg hlt]
      refine ⟨by rw [hres]; exact h1, ?_, ?_, ?_⟩
      · rw [hres]
        rcases h2 with h | h
        · exact Or.inl h
        · exact Or.inr (Nat.lt_succ_of_lt h)
      · intro j hj
        rw [hres]
        rcases Nat.lt_succ_iff_lt_or_eq.mp hj with hj2 | rfl
        · exact h3 j hj2
        · exact not_lt.mp hlt
      · intro j hj
        rw [hres] at hj ⊢
        exact h4 j hj

/-- The destination chosen by `find_best_j` is a real action index. -/
theorem find_best_j_lt (beta : ℝ) (adv : ℕ → ℝ) (A : ℕ) (i : ℕ) (hA : A ≠ 0) :
    find_best_j beta adv A i < A := by
  unfold find_best_j
  rcases (bestScan_spec (fun j => adv j - beta * calc_d j i) A).2.1 with h | h
  · rw [h]; exact Nat.pos_of_ne_zero hA
  · exact h

/-- The Wasserstein transport conserves mass exactly. -/
theorem wassRow_sum (beta : ℝ) (A : ℕ) (adv old : ℕ → ℝ) :
    ∑ j ∈ Finset.range A, wassNewRow beta A adv old j
      = ∑ i ∈ Finset.range A, old i := by
  rcases Nat.eq_zero_or_pos A with rfl | hA
  · simp [wassNewRow]
  unfold wassNewRow
  rw [Finset.sum_comm]
  refine Finset.sum_congr rfl (fun i hi => ?_)
  rw [Finset.sum_ite_eq (Finset.range A) (find_best_j beta adv A i) (fun _ => old i)]
  rw [if_pos (Finset.mem_range.mpr (find_best_j_lt beta adv A i hA.ne'))]

/-- The Wasserstein transport keeps nonnegative rows nonnegative. -/
theorem wassRow_nonneg (beta : ℝ) (A : ℕ) (adv old : ℕ → ℝ) (j : ℕ)
    (hnn : ∀ i, i < A → 0 ≤ old i) :
    0 ≤ wassNewRow beta A adv old j := by
  unfold wassNewRow
  refine Finset.sum_nonneg (fun i hi => ?_)
  split_ifs
  · exact hnn i (Finset.mem_range.mp hi)
  · exact le_refl 0

/-- Inversion of a successful `klUpdate`. -/
theorem klUpdate_ok (S A : ℕ) (samples : List (ℤ × ℤ × ℝ)) (env : String)
    (old : Table) (f : Table) (h : klUpdate S A samples env old = Except.ok f) :
    ∃ adv0 adv, advTable S A samples = Except.ok adv0 ∧
      klAdjust S A env adv0 = Except.ok adv ∧
      f = fun s a =>
        if s < S ∧ a < A then klNewRow 1 A (adv s) (old s) a
        else old s a := by
  unfold klUpdate at h
  split at h
  · exact absurd h (by simp)
  · rename_i adv0 hadv
    split at h
    · exact absurd h (by simp)
    · rename_i adv hadj
      exact ⟨adv0, adv, hadv, hadj, ((Except.ok.injEq _ _).mp h).symm⟩

/-- Inversion of a successful `sinkUpdate` when the state has at least one
state and action (then the unbound-beta path cannot return normally). -/
theorem sinkUpdate_ok (S A : ℕ) (samples : List (ℤ × ℤ × ℝ)) (env : String)
    (eps lamb0 : ℝ) (old : Table) (f : Table) (hS : S ≠ 0) (hA : A ≠ 0)
    (h : sinkUpdate S A samples env eps lamb0 old = Except.ok f) :
    ∃ adv0 adv beta lamb, advTable S A samples = Except.ok adv0 ∧
      sinkAdjust S A env adv0 = Except.ok adv ∧
      sinkBetaLamb env eps lamb0 = (some beta, lamb) ∧
      f = fun s a =>
        if s < S ∧ a < A then sinkNewRow lamb beta A (adv s) (old s) a
        else 0 := by
  unfold sinkUpdate at h
  split at h
  · exact absurd h (by simp)
  · rename_i adv0 hadv
    split at h
    · exact absurd h (by simp)
    · rename_i adv hadj
      split at h
      · rename_i beta lamb hbl
        exact ⟨adv0, adv, beta, lamb, hadv, hadj, hbl,
          ((Except.ok.injEq _ _).mp h).symm⟩
      · rw [if_neg (by simp [hS, hA])] at h
        exact absurd h (by simp)

/-- Inversion of a successful `wassUpdate`. -/
theorem wassUpdate_ok (S A : ℕ) (samples : List (ℤ × ℤ × ℝ)) (env : String)
    (u : ℝ) (old : Table) (f : Table)
    (h : wassUpdate S A samples env u old = Except.ok f) :
    ∃ adv0 adv beta, advTable S A samples = Except.ok adv0 ∧
      wassAdjust S A env adv0 = Except.ok adv ∧
      wassBeta env u = some beta ∧
      f = fun s a =>
        if s < S ∧ a < A then wassNewRow beta A (adv s) (old s) a
        else 0 := by
  unfold wassUpdate at h
  split at h
  · exact absurd h (by simp)
  · rename_i adv0 hadv
    split at h
    · exact absurd h (by simp)
    · rename_i adv hadj
      split at h
      · rename_i beta hb
        exact ⟨adv0, adv, beta, hadv, hadj, hb,
          ((Except.ok.injEq _ _).mp h).symm⟩
      · exact absurd h (by simp)

/-- C1: for every state `s`, under each of the three projectors
(`DRPolicyKL.update`, `DRPolicySinkhorn.update`, `DRPolicyWass.update`),
if the pre-update row of `s` is a probability mass function (entries
nonnegative and summing to one, strictly positive for the KL projector),
then the post-update row sums to one within `1e-9` and every entry is
nonnegative. -/
theorem c1_pmf_preserved (S A : ℕ) (samples : List (ℤ × ℤ × ℝ)) (env : String)
    (eps lamb0 u : ℝ) (old : Table) (s : ℕ) (hs : s < S)
    (hnn : ∀ a, a < A → 0 ≤ old s a)
    (hsum : ∑ a ∈ Finset.range A, old s a = 1) :
    (∀ f, klUpdate S A samples env old = Except.ok f →
      (∀ a, a < A → 0 < old s a) →
      |(∑ a ∈ Finset.range A, f s a) - 1| ≤ 1e-9 ∧ ∀ a, a < A → 0 ≤ f s a) ∧
    (∀ f, sinkUpdate S A samples env eps lamb0 old = Except.ok f →
      |(∑ a ∈ Finset.range A, f s a) - 1| ≤ 1e-9 ∧ ∀ a, a < A → 0 ≤ f s a) ∧
    (∀ f, wassUpdate S A samples env u old = Except.ok f →
      |(∑ a ∈ Finset.range A, f s a) - 1| ≤ 1e-9 ∧ ∀ a, a < A → 0 ≤ f s a) := by
  have hA : A ≠ 0 := by rintro rfl; simp at hsum
  refine ⟨?_, ?_, ?_⟩
  · intro f hf hpos
    obtain ⟨adv0, adv, -, -, rfl⟩ := klUpdate_ok S A samples env old f hf
    have hrw : ∀ a ∈ Finset.range A,
        (if s < S ∧ a < A then klNewRow 1 A (adv s) (old s) a else old s a)
          = klNewRow 1 A (adv s) (old s) a := by
      intro a ha
      rw [if_pos ⟨hs, Finset.mem_range.mp ha⟩]
    constructor
    · rw [Finset.sum_congr rfl hrw,
        klRow_sum 1 A (adv s) (old s) hpos hsum]
      norm_num
    · intro a ha
      have h2 := hrw a (Finset.mem_range.mpr ha)
      simp only [h2]
      exact klRow_nonneg 1 A (adv s) (old s) hpos hA a ha
  · intro f hf
    have hS : S ≠ 0 := by omega
    obtain ⟨adv0, adv, beta, lamb, -, -, -, rfl⟩ :=
      sinkUpdate_ok S A samples env eps lamb0 old f hS hA hf
    have hrw : ∀ a ∈ Finset.range A,
        (if s < S ∧ a < A then
          sinkNewRow lamb beta A (adv s) (old s) a else 0)
          = sinkNewRow lamb beta A (adv s) (old s) a := by
      intro a ha
      rw [if_pos ⟨hs, Finset.mem_range.mp ha⟩]
    constructor
    · rw [Finset.sum_congr rfl hrw,
        sinkRow_sum lamb beta A (adv s) (old s) hA, hsum]
      norm_num
    · intro a ha
      have h2 := hrw a (Finset.mem_range.mpr ha)
      simp only [h2]
      exact sinkRow_nonneg lamb beta A (adv s) (old s) a hnn
  · intro f hf
    obtain ⟨adv0, adv, beta, -, -, -, rfl⟩ := wassUpdate_ok S A samples env u old f hf
    have hrw : ∀ a ∈ Finset.range A,
        (if s < S ∧ a < A then
          wassNewRow beta A (adv s) (old s) a else 0)
          = wassNewRow beta A (adv s) (old s) a := by
      intro a ha
      rw [if_pos ⟨hs, Finset.mem_range.mp ha⟩]
    constructor
    · rw [Finset.sum_congr rfl hrw,
        wassRow_sum beta A (adv s) (old s), hsum]
      norm_num
    · intro a ha
      have h2 := hrw a (Finset.mem_range.mpr ha)
      simp only [h2]
      exact wassRow_nonneg beta A (adv s) (old s) a hnn

/-- Evaluation witness for C1: all three updates succeed on the empty batch
under `NChain-v0` with the uniform 2-state, 2-action policy (the bonus cells
`(0,1)` and `(1,1)` exist), and the invariant holds at state `0`. -/
theorem c1_pmf_preserved_witness :
    isOk (klUpdate 2 2 [] "NChain-v0" oldHalf) ∧
    isOk (sinkUpdate 2 2 [] "NChain-v0" 1 3 oldHalf) ∧
    isOk (wassUpdate 2 2 [] "NChain-v0" 0 oldHalf) ∧
    ((∀ f, klUpdate 2 2 [] "NChain-v0" oldHalf = Except.ok f →
      (∀ a, a < 2 → 0 < oldHalf 0 a) →
      |(∑ a ∈ Finset.range 2, f 0 a) - 1| ≤ 1e-9 ∧ ∀ a, a < 2 → 0 ≤ f 0 a) ∧
    (∀ f, sinkUpdate 2 2 [] "NChain-v0" 1 3 oldHalf = Except.ok f →
      |(∑ a ∈ Finset.range 2, f 0 a) - 1| ≤ 1e-9 ∧ ∀ a, a < 2 → 0 ≤ f 0 a) ∧
    (∀ f, wassUpdate 2 2 [] "NChain-v0" 0 oldHalf = Except.ok f →
      |(∑ a ∈ Finset.range 2, f 0 a) - 1| ≤ 1e-9 ∧ ∀ a, a < 2 → 0 ≤ f 0 a)) :=
  ⟨trivial, trivial, trivial,
   c1_pmf_preserved 2 2 [] "NChain-v0" 1 3 0 oldHalf 0 (by norm_num)
     (fun a _ => by norm_num [oldHalf])
     (by norm_num [oldHalf, Finset.sum_range_succ])⟩

/-- C2: `DRPolicyKL.update` computes each state row as the exponential tilt
of the old row with the hardcoded temperature `beta = 1`; and on the concrete
scenario (2 states, 2 actions, uniform rows, samples
`(0,0,1.0), (0,1,-1.0), (1,0,0.0), (1,1,0.0)`) the new row of state `0` is
`[exp 1, exp (-1)]` normalised (within `1e-3` of `[0.8808, 0.1192]`) and the
row of state `1` stays `[0.5, 0.5]`. -/
theorem c2_kl_exponential_tilt :
    (∀ S A : ℕ, ∀ samples : List (ℤ × ℤ × ℝ), ∀ env : String, ∀ old adv0 adv f : Table,
      advTable S A samples = Except.ok adv0 →
      klAdjust S A env adv0 = Except.ok adv →
      klUpdate S A samples env old = Except.ok f →
      ∀ s, s < S → ∀ a, a < A →
        f s a = old s a * Real.exp (adv s a / 1) /
          ∑ b ∈ Finset.range A, old s b * Real.exp (adv s b / 1)) ∧
    (klUpdate 2 2 samplesC2 "" oldHalf
        = Except.ok (outTable (klUpdate 2 2 samplesC2 "" oldHalf)) ∧
     outTable (klUpdate 2 2 samplesC2 "" oldHalf) 0 0
        = Real.exp 1 / (Real.exp 1 + Real.exp (-1)) ∧
     outTable (klUpdate 2 2 samplesC2 "" oldHalf) 0 1
        = Real.exp (-1) / (Real.exp 1 + Real.exp (-1)) ∧
     |outTable (klUpdate 2 2 samplesC2 "" oldHalf) 0 0 - 0.8808| ≤ 1e-3 ∧
     |outTable (klUpdate 2 2 samplesC2 "" oldHalf) 0 1 - 0.1192| ≤ 1e-3 ∧
     outTable (klUpdate 2 2 samplesC2 "" oldHalf) 1 0 = 1 / 2 ∧
     outTable (klUpdate 2 2 samplesC2 "" oldHalf) 1 1 = 1 / 2) := by
  have hval00 : outTable (klUpdate 2 2 samplesC2 "" oldHalf) 0 0
      = Real.exp 1 / (Real.exp 1 + Real.exp (-1)) := by
    simp [samplesC2, klUpdate, advTable, aggFold, aggStep, pyIdx, upd2, outTable,
      klAdjust, klNewRow, oldHalf, Finset.sum_range_succ]
    rw [show Real.exp 1 * 2⁻¹ + Real.exp (-1) * 2⁻¹
          = (Real.exp 1 + Real.exp (-1)) * 2⁻¹ by ring,
      mul_div_mul_right _ _ (by norm_num : ((2:ℝ)⁻¹) ≠ 0)]
  have hval01 : outTable (klUpdate 2 2 samplesC2 "" oldHalf) 0 1
      = Real.exp (-1) / (Real.exp 1 + Real.exp (-1)) := by
    simp [samplesC2, klUpdate, advTable, aggFold, aggStep, pyIdx, upd2, outTable,
      klAdjust, klNewRow, oldHalf, Finset.sum_range_succ]
    rw [show Real.exp 1 * 2⁻¹ + Real.exp (-1) * 2⁻¹
          = (Real.exp 1 + Real.exp (-1)) * 2⁻¹ by ring,
      mul_div_mul_right _ _ (by norm_num : ((2:ℝ)⁻¹) ≠ 0)]
  have h1 := Real.exp_one_gt_d9
  have h2 := Real.exp_one_lt_d9
  have h3 : Real.exp (-1) = (Real.exp 1)⁻¹ := by rw [← Real.exp_neg]
  have h4 : (0:ℝ) < Real.exp 1 := Real.exp_pos 1
  have h6 : (0:ℝ) < (Real.exp 1)⁻¹ := by positivity
  have h7 : Real.exp 1 * (Real.exp 1)⁻¹ = 1 := mul_inv_cancel₀ h4.ne'
  have h5 : (0:ℝ) < Real.exp 1 + (Real.exp 1)⁻¹ := by positivity
  refine ⟨?_, rfl, hval00, hval01, ?_, ?_, ?_, ?_⟩
  · intro S A samples env old adv0 adv f hadv hadj hupd s hs a ha
    obtain ⟨adv1, adv2, hadv1, hadj1, rfl⟩ := klUpdate_ok S A samples env old f hupd
    rw [hadv] at hadv1
    obtain rfl : adv0 = adv1 := by
      exact Except.ok.injEq _ _ ▸ hadv1
    rw [hadj] at hadj1
    obtain rfl : adv = adv2 := by
      exact Except.ok.injEq _ _ ▸ hadj1
    simp only [if_pos (And.intro hs ha)]
    unfold klNewRow
    rw [mul_comm]
    congr 1
    exact Finset.sum_congr rfl (fun b _ => mul_comm _ _)
  · rw [hval00, h3, abs_le]
    constructor
    · rw [neg_le_sub_iff_le_add, ← sub_le_iff_le_add, le_div_iff₀ h5]
      nlinarith [h1, h2, h6, h7]
    · rw [sub_le_iff_le_add, div_le_iff₀ h5]
      nlinarith [h1, h2, h6, h7]
  · rw [hval01, h3, abs_le]
    constructor
    · rw [neg_le_sub_iff_le_add, ← sub_le_iff_le_add, le_div_iff₀ h5]
      nlinarith [h1, h2, h6, h7]
    · rw [sub_le_iff_le_add, div_le_iff₀ h5]
      nlinarith [h1, h2, h6, h7]
  · simp [samplesC2, klUpdate, advTable, aggFold, aggStep, pyIdx, upd2, outTable,
      klAdjust, klNewRow, oldHalf, Finset.sum_range_succ]
    norm_num
  · simp [samplesC2, klUpdate, advTable, aggFold, aggStep, pyIdx, upd2, outTable,
      klAdjust, klNewRow, oldHalf, Finset.sum_range_succ]
    norm_num

/-- C3: `find_best_j` picks, for every source action `i`, the destination
`best(i)` that maximises `advantage[j] - beta * distance(j, i)`, with ties
broken by the lowest index `j` (every index before `best(i)` is strictly
worse); and the transported row gives destination `b` exactly the old mass of
the source actions with `best(i) = b`. -/
theorem c3_wass_transport_argmax (A : ℕ) (hA : 1 ≤ A) (beta : ℝ)
    (adv old : ℕ → ℝ) :
    (∀ i, i < A →
      find_best_j beta adv A i < A ∧
      (∀ j, j < A →
        adv j - beta * calc_d j i
          ≤ adv (find_best_j beta adv A i)
            - beta * calc_d (find_best_j beta adv A i) i) ∧
      (∀ j, j < find_best_j beta adv A i →
        adv j - beta * calc_d j i
          < adv (find_best_j beta adv A i)
            - beta * calc_d (find_best_j beta adv A i) i)) ∧
    (∀ b, b < A → wassNewRow beta A adv old b
      = ∑ i ∈ (Finset.range A).filter (fun i => find_best_j beta adv A i = b), old i) := by
  constructor
  · intro i _
    obtain ⟨h1, -, h3, h4⟩ := bestScan_spec (fun j => adv j - beta * calc_d j i) A
    refine ⟨find_best_j_lt beta adv A i (by omega), ?_, ?_⟩
    · intro j hj
      have := h3 j hj
      rw [h1] at this
      exact this
    · intro j hj
      have := h4 j hj
      rw [h1] at this
      exact this
  · intro b _
    rw [Finset.sum_filter]
    rfl

/-- Evaluation witness for C3: one action, zero advantage, zero penalty. -/
theorem c3_wass_transport_argmax_witness :
    (∀ i, i < 1 →
      find_best_j 0 (fun _ => (0:ℝ)) 1 i < 1 ∧
      (∀ j, j < 1 →
        (fun _ => (0:ℝ)) j - 0 * calc_d j i
          ≤ (fun _ => (0:ℝ)) (find_best_j 0 (fun _ => (0:ℝ)) 1 i)
            - 0 * calc_d (find_best_j 0 (fun _ => (0:ℝ)) 1 i) i) ∧
      (∀ j, j < find_best_j 0 (fun _ => (0:ℝ)) 1 i →
        (fun _ => (0:ℝ)) j - 0 * calc_d j i
          < (fun _ => (0:ℝ)) (find_best_j 0 (fun _ => (0:ℝ)) 1 i)
            - 0 * calc_d (find_best_j 0 (fun _ => (0:ℝ)) 1 i) i)) ∧
    (∀ b, b < 1 → wassNewRow 0 1 (fun _ => (0:ℝ)) (fun _ => (1:ℝ)) b
      = ∑ i ∈ (Finset.range 1).filter
          (fun i => find_best_j 0 (fun _ => (0:ℝ)) 1 i = b), (fun _ => (1:ℝ)) i) :=
  c3_wass_transport_argmax 1 (by norm_num) 0 (fun _ => (0:ℝ)) (fun _ => (1:ℝ))

/-- C5: `DRPolicyWass.update` conserves mass exactly: for every state the new
row sums to exactly the mass of the old row. -/
theorem c5_wass_mass_conservation (S A : ℕ) (samples : List (ℤ × ℤ × ℝ))
    (env : String) (u : ℝ) (old : Table) (s : ℕ) (hs : s < S)
    (_hnn : ∀ i, i < A → 0 ≤ old s i) :
    ∀ f, wassUpdate S A samples env u old = Except.ok f →
      ∑ j ∈ Finset.range A, f s j = ∑ i ∈ Finset.range A, old s i := by
  intro f hf
  obtain ⟨adv0, adv, beta, -, -, -, rfl⟩ := wassUpdate_ok S A samples env u old f hf
  have hrw : ∀ a ∈ Finset.range A,
      (if s < S ∧ a < A then
        wassNewRow beta A (adv s) (old s) a else 0)
        = wassNewRow beta A (adv s) (old s) a := by
    intro a ha
    rw [if_pos ⟨hs, Finset.mem_range.mp ha⟩]
  rw [Finset.sum_congr rfl hrw]
  exact wassRow_sum beta A (adv s) (old s)

/-- Evaluation witness for C5: the empty batch on a 2-state, 2-action uniform
policy under the `NChain-v0` beta (the bonus cells exist, so the update
succeeds). -/
theorem c5_wass_mass_conservation_witness :
    isOk (wassUpdate 2 2 [] "NChain-v0" 0 oldHalf) ∧
    (∀ f, wassUpdate 2 2 [] "NChain-v0" 0 oldHalf = Except.ok f →
      ∑ j ∈ Finset.range 2, f 0 j = ∑ i ∈ Finset.range 2, oldHalf 0 i) := by
  constructor
  · trivial
  · exact c5_wass_mass_conservation 2 2 [] "NChain-v0" 0 oldHalf 0 (by norm_num)
      (fun i _ => by norm_num [oldHalf])

/-- The discrete action metric is symmetric. -/
theorem calc_d_comm (i j : ℕ) : calc_d i j = calc_d j i := by
  unfold calc_d
  by_cases h : i = j
  · rw [if_pos h, if_pos h.symm]
  · rw [if_neg h, if_neg (fun h2 => h h2.symm)]

/-- Each Sinkhorn denominator under a constant exponent `lc` is the same
closed form `exp lc * (1 + (A-1) * exp (-lamb))` for the discrete metric. -/
theorem sum_exp_row (lamb lc : ℝ) (A m : ℕ) (hm : m < A) :
    ∑ k ∈ Finset.range A, Real.exp (lc - lamb * calc_d k m)
      = Real.exp lc * (1 + ((A : ℝ) - 1) * Real.exp (-lamb)) := by
  have hterm : ∀ k, Real.exp (lc - lamb * calc_d k m)
      = Real.exp (lc - lamb)
        + (if k = m then Real.exp lc - Real.exp (lc - lamb) else 0) := by
    intro k
    unfold calc_d
    by_cases h : k = m
    · rw [if_pos h, if_pos h]
      ring_nf
    · rw [if_neg h, if_neg h]
      ring_nf
  rw [Finset.sum_congr rfl (fun k _ => hterm k), Finset.sum_add_distrib,
    Finset.sum_const, Finset.card_range,
    Finset.sum_ite_eq' (Finset.range A) m
      (fun _ => Real.exp lc - Real.exp (lc - lamb)),
    if_pos (Finset.mem_range.mpr hm), nsmul_eq_mul]
  have hX : Real.exp lc * Real.exp (-lamb) = Real.exp (lc - lamb) := by
    rw [← Real.exp_add, sub_eq_add_neg]
  nlinarith [hX]

/-- With a constant advantage row, the KL tilt is the identity on any
unit-mass row. -/
theorem kl_const_identity (beta : ℝ) (A : ℕ) (adv old : ℕ → ℝ) (c : ℝ)
    (hconst : ∀ b, b < A → adv b = c)
    (hsum : ∑ b ∈ Finset.range A, old b = 1) (a : ℕ) (ha : a < A) :
    klNewRow beta A adv old a = old a := by
  unfold klNewRow
  have hd : ∑ b ∈ Finset.range A, Real.exp (adv b / beta) * old b
      = Real.exp (c / beta) := by
    rw [Finset.sum_congr rfl
        (fun b hb => by rw [hconst b (Finset.mem_range.mp hb)]),
      ← Finset.mul_sum, hsum, mul_one]
  rw [hd, hconst a ha, mul_comm, mul_div_assoc, div_self (Real.exp_ne_zero _),
    mul_one]

/-- With a constant advantage row, the Sinkhorn sweep fixes the uniform row
(the only row it fixes in general). -/
theorem sink_const_uniform (lamb beta c : ℝ) (A : ℕ) (adv : ℕ → ℝ)
    (hconst : ∀ b, b < A → adv b = c) (i : ℕ) (hi : i < A) :
    sinkNewRow lamb beta A adv (fun _ => (A : ℝ)⁻¹) i = (A : ℝ)⁻¹ := by
  have hA1 : (1:ℝ) ≤ (A:ℝ) := by
    have : 1 ≤ A := by omega
    exact_mod_cast this
  have hT : 0 < 1 + ((A : ℝ) - 1) * Real.exp (-lamb) := by
    nlinarith [Real.exp_pos (-lamb)]
  have hE : (0:ℝ) < Real.exp (lamb / beta * c) := Real.exp_pos _
  unfold sinkNewRow
  have hstep : ∀ j ∈ Finset.range A,
      (fun _ => (A : ℝ)⁻¹) j *
        (Real.exp (lamb / beta * adv i - lamb * calc_d i j) /
          ∑ k ∈ Finset.range A, Real.exp (lamb / beta * adv k - lamb * calc_d k j))
      = (A : ℝ)⁻¹ *
        (Real.exp (lamb / beta * c - lamb * calc_d j i) /
          (Real.exp (lamb / beta * c) * (1 + ((A : ℝ) - 1) * Real.exp (-lamb)))) := by
    intro j hj
    have hd : ∑ k ∈ Finset.range A,
        Real.exp (lamb / beta * adv k - lamb * calc_d k j)
        = Real.exp (lamb / beta * c) * (1 + ((A : ℝ) - 1) * Real.exp (-lamb)) := by
      rw [Finset.sum_congr rfl
          (fun k hk => by rw [hconst k (Finset.mem_range.mp hk)])]
      exact sum_exp_row lamb (lamb / beta * c) A j (Finset.mem_range.mp hj)
    rw [hd, hconst i hi, calc_d_comm i j]
  rw [Finset.sum_congr rfl hstep, ← Finset.mul_sum, ← Finset.sum_div,
    sum_exp_row lamb (lamb / beta * c) A i hi,
    div_self (by positivity), mul_one]

/-- C4 (amended): with a constant advantage row, `DRPolicyKL.update` leaves
the state row unchanged (for any unit-mass row), while the single sweep of
`DRPolicySinkhorn.update` only does so for the uniform row: it contracts
non-uniform rows toward uniform (see the counterexample). -/
theorem c4_constant_advantage_amended (A : ℕ) (adv old : ℕ → ℝ)
    (c lamb beta : ℝ) (a : ℕ) (ha : a < A)
    (hconst : ∀ b, b < A → adv b = c)
    (hsum : ∑ b ∈ Finset.range A, old b = 1) :
    klNewRow 1 A adv old a = old a ∧
    sinkNewRow lamb beta A adv (fun _ => (A : ℝ)⁻¹) a = (A : ℝ)⁻¹ :=
  ⟨kl_const_identity 1 A adv old c hconst hsum a ha,
   sink_const_uniform lamb beta c A adv hconst a ha⟩

/-- Evaluation witness for C4 (amended): two actions, zero advantage,
uniform halves. -/
theorem c4_constant_advantage_witness :
    klNewRow 1 2 (fun _ => (0:ℝ)) (fun _ => (1/2 : ℝ)) 0 = 1/2 ∧
    sinkNewRow 1 1 2 (fun _ => (0:ℝ)) (fun _ => ((2:ℕ) : ℝ)⁻¹) 0 = ((2:ℕ) : ℝ)⁻¹ :=
  c4_constant_advantage_amended 2 (fun _ => (0:ℝ)) (fun _ => (1/2 : ℝ)) 0 1 1 0
    (by norm_num) (fun b _ => rfl)
    (by simp [Finset.sum_range_succ])

/-- C4 counterexample: an empty batch gives a constant (all-zero) advantage
row, the pre-update row `[3/4, 1/4]` is a valid probability mass function,
yet `DRPolicySinkhorn.update` (here under `Taxi-v3`, `eps = 1`, so
`beta = 3`, `lamb = 1`) moves its first entry by more than `1e-2`:
the sweep is not the identity on constant advantage. -/
theorem c4_constant_advantage_counterexample :
    sinkUpdate 1 2 [] "Taxi-v3" 1 3 oldNU
      = Except.ok (outTable (sinkUpdate 1 2 [] "Taxi-v3" 1 3 oldNU)) ∧
    outTable (advTable 1 2 []) 0 0 = 0 ∧
    outTable (advTable 1 2 []) 0 1 = 0 ∧
    oldNU 0 0 + oldNU 0 1 = 1 ∧ (0:ℝ) ≤ oldNU 0 0 ∧ (0:ℝ) ≤ oldNU 0 1 ∧
    1e-2 < |outTable (sinkUpdate 1 2 [] "Taxi-v3" 1 3 oldNU) 0 0 - oldNU 0 0| := by
  have ht0 : (0:ℝ) < Real.exp (-1) := Real.exp_pos _
  have h1t : (0:ℝ) < 1 + Real.exp (-1) := by positivity
  have hval : outTable (sinkUpdate 1 2 [] "Taxi-v3" 1 3 oldNU) 0 0
      = (3/4 + Real.exp (-1) / 4) / (1 + Real.exp (-1)) := by
    simp [sinkUpdate, advTable, aggFold, sinkBetaLamb, sinkAdjust, sinkNewRow,
      calc_d, oldNU, outTable, Finset.sum_range_succ]
    field_simp
    ring
  refine ⟨rfl, by simp [advTable, aggFold, outTable], by simp [advTable, aggFold, outTable],
    by norm_num [oldNU], by norm_num [oldNU], by norm_num [oldNU], ?_⟩
  have hneg : Real.exp (-1) = (Real.exp 1)⁻¹ := by rw [Real.exp_neg]
  have h7 : Real.exp 1 * Real.exp (-1) = 1 := by
    rw [hneg]
    exact mul_inv_cancel₀ (Real.exp_pos 1).ne'
  have hX : outTable (sinkUpdate 1 2 [] "Taxi-v3" 1 3 oldNU) 0 0 < 3/4 - 1e-2 := by
    rw [hval, div_lt_iff₀ h1t]
    nlinarith [ht0, h7, Real.exp_one_lt_d9, Real.exp_pos 1]
  have hdiff : (1e-2 : ℝ) < oldNU 0 0 - outTable (sinkUpdate 1 2 [] "Taxi-v3" 1 3 oldNU) 0 0 := by
    have hv : oldNU 0 0 = 3/4 := by norm_num [oldNU]
    rw [hv]
    linarith
  calc (1e-2 : ℝ)
      < oldNU 0 0 - outTable (sinkUpdate 1 2 [] "Taxi-v3" 1 3 oldNU) 0 0 := hdiff
    _ ≤ |outTable (sinkUpdate 1 2 [] "Taxi-v3" 1 3 oldNU) 0 0 - oldNU 0 0| := by
        rw [abs_sub_comm]
        exact le_abs_self _

/-- C6 (amended): a batch containing a state index at or above `S` or below
`-S`, or an action index at or above `A` or below `-A`, makes each of the
three updates fail with an `IndexError` and leave the policy object (heap,
list address, allocator) exactly as it was: no partial mutation.  Negative
indices in `[-S, 0)` and `[-A, 0)` are not rejected: Python list indexing
wraps them around (see the counterexample). -/
theorem c6_out_of_range_amended (S A : ℕ) (samples : List (ℤ × ℤ × ℝ))
    (env : String) (eps lamb0 u : ℝ) (h : Heap) (addr next : ℕ)
    (hbad : ∃ smp ∈ samples,
      (S : ℤ) ≤ smp.1 ∨ smp.1 < -(S : ℤ) ∨ (A : ℤ) ≤ smp.2.1 ∨ smp.2.1 < -(A : ℤ)) :
    klUpdateObj S A samples env (h, addr, next)
      = Except.error (PyErr.indexError, h, addr, next) ∧
    sinkUpdateObj S A samples env eps lamb0 (h, addr, next)
      = Except.error (PyErr.indexError, h, addr, next) ∧
    wassUpdateObj S A samples env u (h, addr, next)
      = Except.error (PyErr.indexError, h, addr, next) := by
  have hadv : advTable S A samples = Except.error PyErr.indexError := by
    unfold advTable
    rw [aggFold_bad S A samples hbad ⟨fun _ _ => 0, fun _ _ => 0⟩]
  refine ⟨?_, ?_, ?_⟩
  · simp [klUpdateObj, klUpdate, hadv]
  · simp [sinkUpdateObj, hadv]
  · simp [wassUpdateObj, hadv]

/-- Evaluation witness for C6 (amended): state index `5` in a 2-state,
2-action policy. -/
theorem c6_out_of_range_witness :
    klUpdateObj 2 2 samplesOOB "" (hOnes, 0, 1)
      = Except.error (PyErr.indexError, hOnes, 0, 1) ∧
    sinkUpdateObj 2 2 samplesOOB "" 1 3 (hOnes, 0, 1)
      = Except.error (PyErr.indexError, hOnes, 0, 1) ∧
    wassUpdateObj 2 2 samplesOOB "" 0 (hOnes, 0, 1)
      = Except.error (PyErr.indexError, hOnes, 0, 1) :=
  c6_out_of_range_amended 2 2 samplesOOB "" 1 3 0 hOnes 0 1
    ⟨(5, 0, 1), by simp [samplesOOB], by norm_num⟩

/-- C6 counterexample: the state index `-1` is outside `[0, S)`, yet
`DRPolicyKL.update` does not fail: Python wraps the index to state `1`,
silently aggregates the sample there, and mutates the table (the row of
state `1` is tilted away from `[1/2, 1/2]`). -/
theorem c6_out_of_range_counterexample :
    klUpdate 2 2 samplesNeg "" oldHalf
      = Except.ok (outTable (klUpdate 2 2 samplesNeg "" oldHalf)) ∧
    outTable (klUpdate 2 2 samplesNeg "" oldHalf) 1 0
      = Real.exp 1 / (Real.exp 1 + 1) ∧
    outTable (klUpdate 2 2 samplesNeg "" oldHalf) 1 0 ≠ 1 / 2 := by
  have hval : outTable (klUpdate 2 2 samplesNeg "" oldHalf) 1 0
      = Real.exp 1 / (Real.exp 1 + 1) := by
    simp [samplesNeg, klUpdate, advTable, aggFold, aggStep, pyIdx, upd2,
      outTable, klAdjust, klNewRow, oldHalf, Finset.sum_range_succ]
    rw [show Real.exp 1 * 2⁻¹ + 2⁻¹ = (Real.exp 1 + 1) * 2⁻¹ by ring,
      mul_div_mul_right _ _ (by norm_num : ((2:ℝ)⁻¹) ≠ 0)]
  refine ⟨rfl, hval, ?_⟩
  rw [hval]
  have h1 := Real.exp_one_gt_d9
  have hpos : (0:ℝ) < Real.exp 1 + 1 := by positivity
  intro heq
  rw [div_eq_iff hpos.ne'] at heq
  nlinarith [h1]

/-- C7: on an unrecognised environment name the code does not raise the
`ConfigurationError` the specification requires; it leaves `beta`/`opt_beta`
unassigned and crashes with a `NameError` (`UnboundLocalError`).  For the
Sinkhorn class the crash happens after `self.distributions` was already
rebound to fresh zero rows (partial mutation); for the Wasserstein class it
happens before any mutation. -/
theorem c7_unrecognized_env_nameerror :
    sinkUpdateObj 1 1 [] "FrozenLake-v1" 1 3 (hOnes, 0, 1)
      = Except.error (PyErr.nameError, updH hOnes 1 (fun _ _ => 0), 1, 2) ∧
    wassUpdateObj 1 1 [] "FrozenLake-v1" (1/2) (hOnes, 0, 1)
      = Except.error (PyErr.nameError, hOnes, 0, 1) ∧
    PyErr.nameError ≠ PyErr.configurationError := by
  refine ⟨?_, ?_, by simp⟩
  · rfl
  · rfl

/-- C9 (amended): `sample(state)` fails with an `IndexError` for
`state ≥ S` or `state < -S`; for `state ∈ [0, S)` with a valid probability
row and a uniform draw `u ∈ [0, 1)` it returns an action index inside
`[0, A)` whose probability in that row is positive.  (States in `[-S, 0)`
wrap around instead of failing: see the counterexample.) -/
theorem c9_sample_amended (S A : ℕ) (dists : Table) (obs : ℤ) (u : ℝ) :
    (((S : ℤ) ≤ obs ∨ obs < -(S : ℤ)) →
      pySample S A dists obs u = Except.error PyErr.indexError) ∧
    (0 ≤ obs → obs < (S : ℤ) → 0 ≤ u → u < 1 →
      (∀ a, a < A → 0 ≤ dists obs.toNat a) →
      (∑ a ∈ Finset.range A, dists obs.toNat a = 1) →
      ∃ i, pySample S A dists obs u = Except.ok i ∧ i < A ∧
        0 < dists obs.toNat i) := by
  constructor
  · intro hout
    unfold pySample
    rw [(pyIdx_eq_none S obs).mpr hout]
  · intro h0 hS hu0 hu1 hnn hsum
    have hidx : pyIdx S obs = some obs.toNat := by
      unfold pyIdx
      rw [if_pos h0, if_pos hS]
    have hA : A ≠ 0 := by rintro rfl; simp at hsum
    have hex : ∃ i, i < A ∧ u < ∑ k ∈ Finset.range (i + 1), dists obs.toNat k := by
      refine ⟨A - 1, by omega, ?_⟩
      rw [show A - 1 + 1 = A by omega, hsum]
      exact hu1
    have hch : npChoice A (dists obs.toNat) u = Nat.find hex := by
      unfold npChoice
      rw [dif_pos hex]
    have hspec := Nat.find_spec hex
    refine ⟨Nat.find hex, ?_, hspec.1, ?_⟩
    · unfold pySample
      rw [hidx]
      show Except.ok (npChoice A (dists obs.toNat) u) = Except.ok (Nat.find hex)
      rw [hch]
    · by_contra hneg
      have hzero : dists obs.toNat (Nat.find hex) = 0 :=
        le_antisymm (not_lt.mp hneg) (hnn _ hspec.1)
      cases hn : Nat.find hex with
      | zero =>
        rw [hn] at hzero
        have := hspec.2
        rw [hn, Finset.sum_range_one, hzero] at this
        linarith
      | succ m =>
        rw [hn] at hzero
        have hmin := Nat.find_min hex (m := m) (by omega)
        push_neg at hmin
        have hm : m < A := by
          have := hspec.1
          omega
        have hle := hmin hm
        have := hspec.2
        rw [hn, Finset.sum_range_succ, hzero, add_zero] at this
        linarith

/-- Evaluation witness for C9 (amended): `sample(5)` fails on a 2-state
policy; `sample(0)` at `u = 0` returns action `0`. -/
theorem c9_sample_witness :
    pySample 2 2 oldHalf 5 0 = Except.error PyErr.indexError ∧
    pySample 2 2 oldHalf 0 0 = Except.ok 0 := by
  constructor
  · exact (c9_sample_amended 2 2 oldHalf 5 0).1 (by norm_num)
  · have hex : ∃ i, i < 2 ∧ (0:ℝ) < ∑ k ∈ Finset.range (i + 1), oldHalf 0 k :=
      ⟨0, by norm_num, by norm_num [oldHalf, Finset.sum_range_one]⟩
    have hch : npChoice 2 (oldHalf 0) 0 = 0 := by
      unfold npChoice
      rw [dif_pos hex, Nat.find_eq_zero]
      exact ⟨by norm_num, by norm_num [oldHalf, Finset.sum_range_one]⟩
    show Except.ok (npChoice 2 (oldHalf 0) 0) = Except.ok 0
    rw [hch]

/-- C9 counterexample: the state argument `-1` is outside `[0, 2)`, yet
`sample` does not fail: Python wraps it to state `1` and the draw succeeds. -/
theorem c9_sample_counterexample :
    pySample 2 2 oldHalf (-1) 0 = Except.ok 0 := by
  have hex : ∃ i, i < 2 ∧ (0:ℝ) < ∑ k ∈ Finset.range (i + 1), oldHalf 1 k :=
    ⟨0, by norm_num, by norm_num [oldHalf, Finset.sum_range_one]⟩
  have hch : npChoice 2 (oldHalf 1) 0 = 0 := by
    unfold npChoice
    rw [dif_pos hex, Nat.find_eq_zero]
    exact ⟨by norm_num, by norm_num [oldHalf, Finset.sum_range_one]⟩
  show Except.ok (npChoice 2 (oldHalf 1) 0) = Except.ok 0
  rw [hch]

/-- C10: a `get_policy` alias taken before an update stays live for
`DRPolicyKL` (the update writes the new rows through the same list object,
so after a successful update the alias address holds exactly the new
distributions), but goes stale for `DRPolicySinkhorn` and `DRPolicyWass`
(their updates rebind `self.distributions` to a freshly allocated list, so
the aliased address still holds the old distributions). -/
theorem c10_alias_liveness (S A : ℕ) (samples : List (ℤ × ℤ × ℝ))
    (env : String) (eps lamb0 u : ℝ) (h : Heap) (addr next ali : ℕ)
    (hal : addr = ali) (hlt : addr < next) :
    (∀ h2 a2 n2, klUpdateObj S A samples env (h, addr, next)
        = Except.ok (h2, a2, n2) →
      a2 = ali ∧ klUpdate S A samples env (h addr) = Except.ok (h2 ali)) ∧
    (∀ h2 a2 n2, sinkUpdateObj S A samples env eps lamb0 (h, addr, next)
        = Except.ok (h2, a2, n2) →
      a2 ≠ ali ∧ h2 ali = h ali) ∧
    (∀ h2 a2 n2, wassUpdateObj S A samples env u (h, addr, next)
        = Except.ok (h2, a2, n2) →
      a2 ≠ ali ∧ h2 ali = h ali) := by
  subst hal
  have hne : next ≠ addr := by omega
  refine ⟨?_, ?_, ?_⟩
  · intro h2 a2 n2 hok
    unfold klUpdateObj at hok
    cases hkl : klUpdate S A samples env ((h, addr, next).1 (h, addr, next).2.1) with
    | error e => rw [hkl] at hok; exact absurd hok (by simp)
    | ok f =>
      rw [hkl] at hok
      simp only [Except.ok.injEq, Prod.mk.injEq] at hok
      obtain ⟨rfl, rfl, rfl⟩ := hok
      refine ⟨rfl, ?_⟩
      have hupd : updH h addr f addr = f := by
        unfold updH
        rw [if_pos rfl]
      rw [hupd]
  · intro h2 a2 n2 hok
    unfold sinkUpdateObj at hok
    split at hok
    · exact absurd hok (by simp)
    · rename_i adv0 hadv
      split at hok
      · exact absurd hok (by simp)
      · rename_i adv hadj
        split at hok
        · rename_i beta lamb hbl
          simp only [Except.ok.injEq, Prod.mk.injEq] at hok
          obtain ⟨rfl, rfl, rfl⟩ := hok
          refine ⟨hne, ?_⟩
          unfold updH
          rw [if_neg hne.symm]
        · by_cases hz : S = 0 ∨ A = 0
          · rw [if_pos hz] at hok
            simp only [Except.ok.injEq, Prod.mk.injEq] at hok
            obtain ⟨rfl, rfl, rfl⟩ := hok
            refine ⟨hne, ?_⟩
            unfold updH
            rw [if_neg hne.symm]
          · rw [if_neg hz] at hok
            exact absurd hok (by simp)
  · intro h2 a2 n2 hok
    unfold wassUpdateObj at hok
    split at hok
    · exact absurd hok (by simp)
    · rename_i adv0 hadv
      split at hok
      · exact absurd hok (by simp)
      · rename_i adv hadj
        split at hok
        · rename_i beta hb
          simp only [Except.ok.injEq, Prod.mk.injEq] at hok
          obtain ⟨rfl, rfl, rfl⟩ := hok
          refine ⟨hne, ?_⟩
          unfold updH
          rw [if_neg hne.symm]
        · exact absurd hok (by simp)

/-- Evaluation witness for C10: all three object updates succeed on an empty
batch under `NChain-v0` with 2 states and 2 actions (so the bonus cells
exist), and the alias facts hold there. -/
theorem c10_alias_liveness_witness :
    isOkObj (klUpdateObj 2 2 [] "NChain-v0" (hOnes, 0, 1)) ∧
    isOkObj (sinkUpdateObj 2 2 [] "NChain-v0" 1 3 (hOnes, 0, 1)) ∧
    isOkObj (wassUpdateObj 2 2 [] "NChain-v0" 0 (hOnes, 0, 1)) ∧
    ((∀ h2 a2 n2, klUpdateObj 2 2 [] "NChain-v0" (hOnes, 0, 1)
        = Except.ok (h2, a2, n2) →
      a2 = 0 ∧ klUpdate 2 2 [] "NChain-v0" (hOnes 0) = Except.ok (h2 0)) ∧
    (∀ h2 a2 n2, sinkUpdateObj 2 2 [] "NChain-v0" 1 3 (hOnes, 0, 1)
        = Except.ok (h2, a2, n2) →
      a2 ≠ 0 ∧ h2 0 = hOnes 0) ∧
    (∀ h2 a2 n2, wassUpdateObj 2 2 [] "NChain-v0" 0 (hOnes, 0, 1)
        = Except.ok (h2, a2, n2) →
      a2 ≠ 0 ∧ h2 0 = hOnes 0)) :=
  ⟨trivial, trivial, trivial,
   c10_alias_liveness 2 2 [] "NChain-v0" 1 3 0 hOnes 0 1 0 rfl (by norm_num)⟩

/-- Evaluation witness for C2: the tilt formula instantiated on the concrete
scenario at state `0`, action `0`. -/
theorem c2_kl_exponential_tilt_witness :
    outTable (klUpdate 2 2 samplesC2 "" oldHalf) 0 0
      = oldHalf 0 0 *
          Real.exp (outTable (klAdjust 2 2 "" (outTable (advTable 2 2 samplesC2))) 0 0 / 1) /
        ∑ b ∈ Finset.range 2,
          oldHalf 0 b *
            Real.exp (outTable (klAdjust 2 2 "" (outTable (advTable 2 2 samplesC2))) 0 b / 1) :=
  c2_kl_exponential_tilt.1 2 2 samplesC2 "" oldHalf
    (outTable (advTable 2 2 samplesC2))
    (outTable (klAdjust 2 2 "" (outTable (advTable 2 2 samplesC2))))
    (outTable (klUpdate 2 2 samplesC2 "" oldHalf)) rfl rfl rfl
    0 (by norm_num) 0 (by norm_num)

end

end DrPolicy
